import Mathlib

/-!
Shallow embedding of the ring-buffer core of go-video-capture
(pkg/ringbuffer/buffer.go) and proofs about the claims of its
specification.

Modelling conventions:
* Wall-clock instants and durations are integer nanoseconds (Go's
  time.Time and time.Duration are nanosecond precision); UnixMilli is
  floor division by 10^6.
* The Go map `map[int]*Segment` is an association list keyed by the
  sequence number; Go map assignment overwrites the entry in place.
* float64 arithmetic on seconds and on the health ratio is modelled
  exactly over the rationals.
* File-system effects are modelled as explicit traces of operations.
-/

namespace VideoCapture

/-- One CMAF segment (struct `Segment` in buffer.go). Times in ns. -/
structure Segment where
  sequence  : Int
  filePath  : String
  startTime : Int
  duration  : Int
  sizeBytes : Int
deriving DecidableEq, Repr

/-- The `segments` field of the buffer: association list sequence → segment. -/
abbrev SegMap := List (Int × Segment)

/-- Go map read `b.segments[seq]`. -/
def lookupSeq (m : SegMap) (k : Int) : Option Segment :=
  (m.find? (fun p => p.1 == k)).map (fun p => p.2)

/-- Go map write `b.segments[seg.Sequence] = seg`: overwrite the stored
entry for the key in place when present, insert otherwise. -/
def insertSeg (m : SegMap) (seg : Segment) : SegMap :=
  match m with
  | [] => [(seg.sequence, seg)]
  | p :: rest =>
      if p.1 = seg.sequence then (seg.sequence, seg) :: rest
      else p :: insertSeg rest seg

/-- The key set (sequence numbers) of the segment map. -/
def segKeys (m : SegMap) : List Int :=
  m.map (fun p => p.1)

/-- Buffer state (struct `Buffer`): the sequence map, `firstSeq`, `lastSeq`
and the init-segment path. Go zero values are 0 / empty. -/
structure Buffer where
  segments    : SegMap
  firstSeq    : Int
  lastSeq     : Int
  initSegment : String
deriving DecidableEq, Repr

/-- The buffer as `New` creates it: empty map, firstSeq = lastSeq = 0. -/
def emptyBuffer : Buffer :=
  { segments := [], firstSeq := 0, lastSeq := 0, initSegment := "" }

/-- State change of `AddSegment` (buffer.go lines 126–151): store the segment
under its sequence; `firstSeq` is lowered when it is 0 (the unset sentinel)
or when the new sequence is smaller; `lastSeq` is raised when the new
sequence is larger. -/
def AddSegment (b : Buffer) (seg : Segment) : Buffer :=
  { segments := insertSeg b.segments seg
    firstSeq :=
      if b.firstSeq = 0 ∨ seg.sequence < b.firstSeq then seg.sequence else b.firstSeq
    lastSeq :=
      if seg.sequence > b.lastSeq then seg.sequence else b.lastSeq
    initSegment := b.initSegment }

/-- Ascending run of integers of the given length starting at lo. -/
def seqRangeAux (lo : Int) : Nat → List Int
  | 0 => []
  | n + 1 => lo :: seqRangeAux (lo + 1) n

/-- The list of candidate sequences `lo, lo+1, …, hi` (empty when hi < lo),
as iterated by the Go loops `for seq := b.firstSeq; seq <= b.lastSeq; seq++`. -/
def seqRange (lo hi : Int) : List Int :=
  seqRangeAux lo (hi + 1 - lo).toNat

/-- State change and removed-file trace of `cleanup` (buffer.go lines
376–411), with the wall clock abstracted into the cutoff it computes:
every segment with `StartTime < cutoff` has its backing file removed and its
map entry deleted; when at least one entry was removed, `firstSeq` is reset
to the first sequence in `firstSeq..lastSeq` still present (and left
unchanged when none is). Returns the new buffer and the deleted file paths. -/
def cleanup (b : Buffer) (cutoff : Int) : Buffer × List String :=
  let doomed := b.segments.filter (fun p => decide (p.2.startTime < cutoff))
  let keep := b.segments.filter (fun p => !decide (p.2.startTime < cutoff))
  if doomed.length = 0 then (b, [])
  else
    let fs :=
      ((seqRange b.firstSeq b.lastSeq).find?
        (fun s => (lookupSeq keep s).isSome)).getD b.firstSeq
    ({ segments := keep, firstSeq := fs, lastSeq := b.lastSeq
       initSegment := b.initSegment },
     doomed.map (fun p => p.2.filePath))

/-- Buffer configuration (struct `Config`): retention duration and segment
duration in ns, plus the channel id. -/
structure Config where
  duration    : Int
  segmentSize : Int
  channelID   : String
deriving DecidableEq, Repr

/-- Go `t.UnixMilli()` on a nanosecond instant. -/
def unixMilli (t : Int) : Int :=
  Int.ediv t 1000000

/-- Go `time.UnixMilli(ms)` as a nanosecond instant. -/
def milliToNano (ms : Int) : Int :=
  ms * 1000000

/-- Status snapshot (struct `BufferStatus`); float64 health is modelled as a
rational. -/
structure BufferStatus where
  health       : ℚ
  oldestTime   : Int
  newestTime   : Int
  segmentCount : Nat
  firstSeq     : Int
  lastSeq      : Int
  initSegment  : String
  channelID    : String
deriving DecidableEq, Repr

/-- Result of `GetStatus` (buffer.go lines 168–200). Oldest/newest times stay
0 unless the corresponding sequence is positive and present;
`maxSegments = int(Duration / SegmentSize)` is Go integer division, which
truncates toward zero; health is the segment count over `maxSegments`,
capped at 1. -/
def GetStatus (cfg : Config) (b : Buffer) : BufferStatus :=
  let oldest : Int :=
    if 0 < b.firstSeq then
      match lookupSeq b.segments b.firstSeq with
      | some seg => unixMilli seg.startTime
      | none => 0
    else 0
  let newest : Int :=
    if 0 < b.lastSeq then
      match lookupSeq b.segments b.lastSeq with
      | some seg => unixMilli seg.startTime
      | none => 0
    else 0
  let maxSegments : Int := Int.tdiv cfg.duration cfg.segmentSize
  let h : ℚ := (b.segments.length : ℚ) / (maxSegments : ℚ)
  { health := if h > 1 then 1 else h
    oldestTime := oldest
    newestTime := newest
    segmentCount := b.segments.length
    firstSeq := b.firstSeq
    lastSeq := b.lastSeq
    initSegment := b.initSegment
    channelID := cfg.channelID }

/-- Result of `GetSegmentsInRange` (buffer.go lines 211–227): scan the
sequences `firstSeq..lastSeq` in ascending order and keep each present
segment with `StartTime < endTime` and `StartTime + Duration > startTime`.
Times in ns. -/
def GetSegmentsInRange (b : Buffer) (startT endT : Int) : List Segment :=
  (seqRange b.firstSeq b.lastSeq).filterMap (fun s =>
    match lookupSeq b.segments s with
    | none => none
    | some seg =>
        if seg.startTime < endT ∧ startT < seg.startTime + seg.duration then
          some seg
        else none)

/-- Seconds value (float64 in Go, modelled exactly as a rational) of a
nanosecond duration, as computed by time.Duration.Seconds(). -/
def secondsOfNanos (n : Int) : ℚ :=
  (n : ℚ) / 1000000000

/-- The trimming decision of `GenerateClip` (buffer.go lines 249–270). -/
structure TrimPlan where
  trimStart : ℚ
  trimEnd   : ℚ
  doTrim    : Bool
  seek      : ℚ
  outDur    : ℚ
deriving DecidableEq, Repr

/-- Trim computation of `GenerateClip` on a resolved segment list: none when
the list is empty (the NoData error path); otherwise
`trimStart = (startTime − segs[0].StartTime).Seconds()` and
`trimEnd = (segs[last].StartTime + segs[last].Duration − endTime).Seconds()`,
neither clamped; the second copy pass runs iff either exceeds 0.1 s, seeking
`trimStart` seconds and emitting `endTime − startTime` seconds. -/
def clipTrimPlan (segments : List Segment) (startMs endMs : Int) : Option TrimPlan :=
  match segments with
  | [] => none
  | first :: rest =>
      let last := rest.getLastD first
      let trimStart := secondsOfNanos (milliToNano startMs - first.startTime)
      let trimEnd := secondsOfNanos (last.startTime + last.duration - milliToNano endMs)
      some
        { trimStart := trimStart
          trimEnd := trimEnd
          doTrim := decide (trimStart > 1/10 ∨ trimEnd > 1/10)
          seek := trimStart
          outDur := ((endMs - startMs : Int) : ℚ) / 1000 }

/-- The segment resolution plus trim computation of `GenerateClip` for a
time-range request given in Unix milliseconds. -/
def generateClipPlan (b : Buffer) (startMs endMs : Int) : Option TrimPlan :=
  clipTrimPlan (GetSegmentsInRange b (milliToNano startMs) (milliToNano endMs)) startMs endMs

/-- An active ghost clip (struct `GhostClip`). -/
structure GhostClip where
  playID    : String
  startTime : Int
  startSeq  : Int
  segments  : List Int
deriving DecidableEq, Repr

/-- The `activeGhosts` map, keyed by play id. -/
abbrev GhostMap := List (String × GhostClip)

/-- Go map read `b.activeGhosts[playID]`. -/
def lookupGhost (g : GhostMap) (pid : String) : Option GhostClip :=
  (g.find? (fun p => p.1 == pid)).map (fun p => p.2)

/-- The duplicate-boundary error prefix of `StartGhostClip`. -/
def ghostActiveMsg : String := "ghost clip already active: "

/-- The unknown-boundary error prefix of `EndGhostClip`. -/
def ghostMissingMsg : String := "ghost clip not found: "

/-- State change of `StartGhostClip` (buffer.go lines 287–308): fails when
the play id is already active (leaving the map unchanged); otherwise records
a boundary with `StartSeq = b.lastSeq` and an empty segment list. Returns
the optional error and the map afterwards. -/
def StartGhostClip (b : Buffer) (g : GhostMap) (pid : String) (now : Int) :
    Option String × GhostMap :=
  if (lookupGhost g pid).isSome then
    (some (ghostActiveMsg ++ pid), g)
  else
    (none,
     g ++ [(pid, { playID := pid, startTime := now, startSeq := b.lastSeq, segments := [] })])

/-- Result snapshot of `EndGhostClip` (struct `GhostClipResult`). -/
structure GhostClipResult where
  playID       : String
  startTime    : Int
  endTime      : Int
  segmentCount : Nat
  segments     : List Int
deriving DecidableEq, Repr

/-- State change of `EndGhostClip` (buffer.go lines 311–331): fails when the
play id is not active (map unchanged); otherwise returns the snapshot and
deletes the boundary. -/
def EndGhostClip (g : GhostMap) (pid : String) (now : Int) :
    Except String GhostClipResult × GhostMap :=
  match lookupGhost g pid with
  | none => (Except.error (ghostMissingMsg ++ pid), g)
  | some ghost =>
      (Except.ok
        { playID := pid
          startTime := ghost.startTime
          endTime := now
          segmentCount := ghost.segments.length
          segments := ghost.segments },
       g.filter (fun p => !(p.1 == pid)))

/-- State change of `notifyGhostClips` (buffer.go lines 346–358): every
active boundary appends the admitted segment's sequence. -/
def notifyGhostClips (g : GhostMap) (seg : Segment) : GhostMap :=
  g.map (fun p => (p.1, { p.2 with segments := p.2.segments ++ [seg.sequence] }))

/-- A file-system side effect, for modelling the traces of cleanup and
saveIndex. -/
inductive FsOp where
  | write  (path : String) : FsOp
  | rename (src dst : String) : FsOp
  | remove (path : String) : FsOp
deriving DecidableEq, Repr

/-- The on-disk index contents (struct `segmentIndex`), wall-clock field
omitted. -/
structure SegmentIndex where
  channelID   : String
  initSegment : String
  firstSeq    : Int
  lastSeq     : Int
  segments    : List Segment
deriving DecidableEq, Repr

/-- File name of the persisted index relative to the buffer path. -/
def indexFileName : String := "/index.json"

/-- Ordering used by saveIndex's sort.Slice call. -/
def seqLE (a b : Segment) : Prop := a.sequence ≤ b.sequence

instance : DecidableRel seqLE := fun a b => Int.decLe a.sequence b.sequence

instance : IsTotal Segment seqLE := ⟨fun a b => Int.le_total a.sequence b.sequence⟩

instance : IsTrans Segment seqLE := ⟨fun _ _ _ h h' => le_trans h h'⟩

/-- Contents and file-system trace of `saveIndex` (buffer.go lines 452–486):
the segment values sorted by sequence are serialized together with the
channel id, init path and first/last sequence, and written in a single
WriteFile call directly to index.json under the buffer path. -/
def saveIndex (cfg : Config) (b : Buffer) (dir : String) : SegmentIndex × List FsOp :=
  ({ channelID := cfg.channelID
     initSegment := b.initSegment
     firstSeq := b.firstSeq
     lastSeq := b.lastSeq
     segments := (b.segments.map (fun p => p.2)).insertionSort seqLE },
   [FsOp.write (dir ++ indexFileName)])

/-- States of the buffer reachable from the freshly created buffer by any
sequence of segment admissions and cleanup passes (the cutoff argument
standing for now − RetentionDuration at tick time). -/
inductive Reachable : Buffer → Prop where
  | init : Reachable emptyBuffer
  | add (b : Buffer) (seg : Segment) : Reachable b → Reachable (AddSegment b seg)
  | clean (b : Buffer) (cutoff : Int) : Reachable b → Reachable (cleanup b cutoff).1

/-- Reachability restricted to runs in which every admitted sequence is at
least 1 and no cleanup pass empties a non-empty buffer. -/
inductive ReachablePos : Buffer → Prop where
  | init : ReachablePos emptyBuffer
  | add (b : Buffer) (seg : Segment) :
      ReachablePos b → 1 ≤ seg.sequence → ReachablePos (AddSegment b seg)
  | clean (b : Buffer) (cutoff : Int) :
      ReachablePos b → ((cleanup b cutoff).1.segments = [] → b.segments = []) →
      ReachablePos (cleanup b cutoff).1

/-- Structural soundness of a buffer state: a vacuous first/last pair on the
empty map, and on a non-empty map every key is positive, bounded by
firstSeq from below and lastSeq from above, with firstSeq itself present. -/
def GoodBuffer (b : Buffer) : Prop :=
  (b.segments = [] → b.firstSeq = 0 ∧ b.lastSeq = 0) ∧
  (∀ k ∈ segKeys b.segments, 1 ≤ k ∧ b.firstSeq ≤ k ∧ k ≤ b.lastSeq) ∧
  (b.segments ≠ [] → b.firstSeq ∈ segKeys b.segments)

/-- Sample segment with a positive sequence. -/
def segC1 : Segment :=
  { sequence := 1, filePath := "a", startTime := 5, duration := 100, sizeBytes := 0 }

/-- Buffer holding only segC1. -/
def bufC1 : Buffer := AddSegment emptyBuffer segC1

/-- Same sequence as segC1 but a different backing file. -/
def segC2 : Segment :=
  { sequence := 1, filePath := "b", startTime := 5, duration := 100, sizeBytes := 0 }

/-- Segment with the sentinel-colliding sequence 0. -/
def segZero : Segment :=
  { sequence := 0, filePath := "s0", startTime := 0, duration := 1000000000, sizeBytes := 0 }

/-- Segment with sequence 2 admitted after segZero. -/
def segTwo : Segment :=
  { sequence := 2, filePath := "s2", startTime := 1000000000, duration := 1000000000, sizeBytes := 0 }

/-- A state reachable by two admissions on which FirstSeq is not the least
stored key. -/
def badBuf : Buffer := AddSegment (AddSegment emptyBuffer segZero) segTwo

/-- Nonempty overlap of the half-open integer intervals [a, b) and [c, d). -/
def intervalsIntersect (a b c d : Int) : Prop :=
  ∃ t : Int, (a ≤ t ∧ t < b) ∧ (c ≤ t ∧ t < d)

/-- Two-segment buffer with keys 1 and 2 inside [FirstSeq, LastSeq]. -/
def bufC4 : Buffer := AddSegment bufC1 segTwo

/-- Segment whose start lies well after the queried window start. -/
def segC5 : Segment :=
  { sequence := 1, filePath := "c", startTime := 5000000000, duration := 2000000000, sizeBytes := 0 }

/-- Buffer holding only segC5. -/
def bufC5 : Buffer := AddSegment emptyBuffer segC5

/-- The trim plan the code computes for bufC5 on the window [0 ms, 6000 ms). -/
def planC5 : TrimPlan :=
  { trimStart := -5, trimEnd := 1, doTrim := true, seek := -5, outDur := 6 }

/-- Modelled from the spec's words, for comparison with the code: the
clamped head trim `max(0, startMs − segs[0].StartTime)` in seconds. -/
def specTrimHead (first : Segment) (startMs : Int) : ℚ :=
  max 0 (secondsOfNanos (milliToNano startMs - first.startTime))

/-- Sample play id. -/
def ghostPid : String := "p1"

/-- Sample active ghost clip. -/
def ghostC7 : GhostClip :=
  { playID := ghostPid, startTime := 0, startSeq := 0, segments := [] }

/-- Whether an Except value is the ok constructor. -/
def exceptOk {ε α : Type} : Except ε α → Bool
  | Except.ok _ => true
  | Except.error _ => false

/-- Modelled from the spec's words, for comparison with the code: ceiling
division of two positive durations. -/
def ceilDiv (a b : Int) : Int :=
  Int.ediv (a + b - 1) b

/-- Modelled from the spec's words: Health = min(1, count / ceil(duration /
segmentSize)). -/
def specHealth (count : Nat) (durNs segNs : Int) : ℚ :=
  min 1 ((count : ℚ) / (ceilDiv durNs segNs : ℚ))

/-- Retention 3 s with 2 s segments: not an integer multiple. -/
def cfgC8 : Config :=
  { duration := 3000000000, segmentSize := 2000000000, channelID := "ch" }

/-- The claimed atomic write-then-rename discipline: some temporary path is
written and then renamed onto the final path, which is never written
directly. -/
def writeThenRename (ops : List FsOp) (finalPath : String) : Prop :=
  (∃ tmp, tmp ≠ finalPath ∧ FsOp.write tmp ∈ ops ∧ FsOp.rename tmp finalPath ∈ ops) ∧
  FsOp.write finalPath ∉ ops

/-- Sample buffer directory. -/
def dataDir : String := "/data"

/-- Retention 20 s with 2 s segments. -/
def cfgC10 : Config :=
  { duration := 20000000000, segmentSize := 2000000000, channelID := "ch" }

theorem lookupSeq_nil (k : Int) : lookupSeq [] k = none := rfl

theorem lookupSeq_cons_pos {a : Int × Segment} {t : SegMap} {k : Int} (h : a.1 = k) :
    lookupSeq (a :: t) k = some a.2 := by
  simp only [lookupSeq]
  rw [List.find?_cons_of_pos _ (by simp [h])]
  rfl

theorem lookupSeq_cons_neg {a : Int × Segment} {t : SegMap} {k : Int} (h : a.1 ≠ k) :
    lookupSeq (a :: t) k = lookupSeq t k := by
  simp only [lookupSeq]
  rw [List.find?_cons_of_neg _ (by simp [h])]

theorem lookupSeq_eq_none {m : SegMap} {k : Int} :
    lookupSeq m k = none ↔ k ∉ segKeys m := by
  induction m with
  | nil => simp [lookupSeq_nil, segKeys]
  | cons a t ih =>
      by_cases hak : a.1 = k
      · rw [lookupSeq_cons_pos hak]
        simp [segKeys, hak]
      · rw [lookupSeq_cons_neg hak, ih]
        simp [segKeys, hak, Ne.symm hak]

theorem lookupSeq_isSome {m : SegMap} {k : Int} :
    (lookupSeq m k).isSome = true ↔ k ∈ segKeys m := by
  rcases h : lookupSeq m k with _ | v
  · simpa using lookupSeq_eq_none.1 h
  · simp only [Option.isSome_some, true_iff]
    by_contra hk
    rw [lookupSeq_eq_none.2 hk] at h
    cases h

theorem mem_of_lookupSeq {m : SegMap} {k : Int} {v : Segment}
    (h : lookupSeq m k = some v) : (k, v) ∈ m := by
  induction m with
  | nil => cases h
  | cons a t ih =>
      by_cases hak : a.1 = k
      · rw [lookupSeq_cons_pos hak] at h
        obtain ⟨a1, a2⟩ := a
        obtain rfl : a1 = k := hak
        obtain rfl : a2 = v := by simpa using h
        exact List.mem_cons_self _ _
      · rw [lookupSeq_cons_neg hak] at h
        exact List.mem_cons_of_mem _ (ih h)

theorem lookupSeq_insertSeg_self (m : SegMap) (seg : Segment) :
    lookupSeq (insertSeg m seg) seg.sequence = some seg := by
  induction m with
  | nil => rw [insertSeg, lookupSeq_cons_pos rfl]
  | cons a t ih =>
      rw [insertSeg]
      by_cases ha : a.1 = seg.sequence
      · rw [if_pos ha, lookupSeq_cons_pos rfl]
      · rw [if_neg ha, lookupSeq_cons_neg ha]
        exact ih

theorem lookupSeq_insertSeg_ne (m : SegMap) (seg : Segment) (k : Int)
    (hk : k ≠ seg.sequence) :
    lookupSeq (insertSeg m seg) k = lookupSeq m k := by
  induction m with
  | nil =>
      rw [insertSeg, lookupSeq_cons_neg (fun h => hk h.symm)]
  | cons a t ih =>
      rw [insertSeg]
      by_cases ha : a.1 = seg.sequence
      · rw [if_pos ha]
        have hka : a.1 ≠ k := by
          intro h
          apply hk
          omega
        rw [lookupSeq_cons_neg (fun h => hk h.symm), lookupSeq_cons_neg hka]
      · rw [if_neg ha]
        by_cases hak : a.1 = k
        · rw [lookupSeq_cons_pos hak, lookupSeq_cons_pos hak]
        · rw [lookupSeq_cons_neg hak, lookupSeq_cons_neg hak]
          exact ih

theorem segKeys_cons (a : Int × Segment) (t : SegMap) :
    segKeys (a :: t) = a.1 :: segKeys t := rfl

theorem segKeys_insertSeg (m : SegMap) (seg : Segment) :
    segKeys (insertSeg m seg) =
      if seg.sequence ∈ segKeys m then segKeys m else segKeys m ++ [seg.sequence] := by
  induction m with
  | nil => simp [insertSeg, segKeys]
  | cons a t ih =>
      rw [insertSeg]
      by_cases ha : a.1 = seg.sequence
      · rw [if_pos ha]
        have hm : seg.sequence ∈ segKeys (a :: t) := by
          rw [segKeys_cons, ha]
          exact List.mem_cons_self _ _
        rw [if_pos hm, segKeys_cons, segKeys_cons, ha]
      · rw [if_neg ha]
        by_cases hmem : seg.sequence ∈ segKeys t
        · have hm : seg.sequence ∈ segKeys (a :: t) := by
            rw [segKeys_cons]
            exact List.mem_cons_of_mem _ hmem
          have h2 : segKeys (insertSeg t seg) = segKeys t := by
            rw [ih, if_pos hmem]
          rw [if_pos hm, segKeys_cons, segKeys_cons, h2]
        · have hm : seg.sequence ∉ segKeys (a :: t) := by
            rw [segKeys_cons]
            intro hc
            rcases List.mem_cons.1 hc with hc' | hc'
            · exact ha hc'.symm
            · exact hmem hc'
          have h2 : segKeys (insertSeg t seg) = segKeys t ++ [seg.sequence] := by
            rw [ih, if_neg hmem]
          rw [if_neg hm, segKeys_cons, segKeys_cons, h2]
          rfl

theorem length_insertSeg (m : SegMap) (seg : Segment) :
    (insertSeg m seg).length =
      if seg.sequence ∈ segKeys m then m.length else m.length + 1 := by
  induction m with
  | nil => simp [insertSeg, segKeys]
  | cons a t ih =>
      rw [insertSeg]
      by_cases ha : a.1 = seg.sequence
      · rw [if_pos ha]
        have : seg.sequence ∈ segKeys (a :: t) := by
          simp [segKeys, ha.symm]
        rw [if_pos this]
        simp
      · rw [if_neg ha]
        by_cases hmem : seg.sequence ∈ segKeys t
        · have hm : seg.sequence ∈ segKeys (a :: t) := by
            simp [segKeys] at hmem ⊢
            exact Or.inr hmem
          rw [if_pos hm]
          simp only [List.length_cons, ih, if_pos hmem]
        · have hm : seg.sequence ∉ segKeys (a :: t) := by
            simp [segKeys] at hmem ⊢
            exact ⟨fun h => ha h.symm, hmem⟩
          rw [if_neg hm]
          simp only [List.length_cons, ih, if_neg hmem]

theorem segKeys_filter_subset {g : Int × Segment → Bool} {m : SegMap} {k : Int}
    (h : k ∈ segKeys (m.filter g)) : k ∈ segKeys m := by
  simp only [segKeys, List.mem_map] at h ⊢
  obtain ⟨p, hp, rfl⟩ := h
  exact ⟨p, List.mem_of_mem_filter hp, rfl⟩

theorem lookupSeq_filter (g : Int × Segment → Bool) :
    ∀ (m : SegMap), (segKeys m).Nodup → ∀ (k : Int),
    lookupSeq (m.filter g) k =
      match lookupSeq m k with
      | none => none
      | some v => if g (k, v) then some v else none := by
  intro m
  induction m with
  | nil => intro _ k; simp [lookupSeq_nil]
  | cons a t ih =>
      intro hnd k
      obtain ⟨a1, a2⟩ := a
      have hnd' : (segKeys t).Nodup := by
        simpa [segKeys] using (by simpa [segKeys] using hnd : (a1 :: segKeys t).Nodup).of_cons
      have hnotin : a1 ∉ segKeys t := by
        have h2 : (a1 :: segKeys t).Nodup := by simpa [segKeys] using hnd
        exact (List.nodup_cons.1 h2).1
      by_cases hak : a1 = k
      · subst hak
        rw [lookupSeq_cons_pos rfl]
        rcases hg : g (a1, a2) with _ | _
        · have hfa : (((a1, a2) :: t)).filter g = t.filter g := by
            simp [List.filter, hg]
          rw [hfa]
          have htail : lookupSeq (t.filter g) a1 = none := by
            rw [lookupSeq_eq_none]
            intro hmem
            exact hnotin (segKeys_filter_subset hmem)
          rw [htail]
          simp [hg]
        · have hfa : (((a1, a2) :: t)).filter g = (a1, a2) :: t.filter g := by
            simp [List.filter, hg]
          rw [hfa, lookupSeq_cons_pos rfl]
          simp [hg]
      · rw [lookupSeq_cons_neg hak]
        rcases hg : g (a1, a2) with _ | _
        · have hfa : (((a1, a2) :: t)).filter g = t.filter g := by
            simp [List.filter, hg]
          rw [hfa, ih hnd' k]
        · have hfa : (((a1, a2) :: t)).filter g = (a1, a2) :: t.filter g := by
            simp [List.filter, hg]
          rw [hfa, lookupSeq_cons_neg hak, ih hnd' k]

theorem mem_seqRangeAux {x : Int} : ∀ {n : Nat} {lo : Int},
    x ∈ seqRangeAux lo n ↔ lo ≤ x ∧ x < lo + n := by
  intro n
  induction n with
  | zero => intro lo; simp [seqRangeAux]
  | succ n ih =>
      intro lo
      rw [seqRangeAux, List.mem_cons, ih]
      omega

theorem mem_seqRange {x lo hi : Int} : x ∈ seqRange lo hi ↔ lo ≤ x ∧ x ≤ hi := by
  rw [seqRange, mem_seqRangeAux]
  omega

theorem seqRangeAux_pairwise : ∀ (n : Nat) (lo : Int),
    (seqRangeAux lo n).Pairwise (· < ·) := by
  intro n
  induction n with
  | zero => intro lo; simp [seqRangeAux]
  | succ n ih =>
      intro lo
      rw [seqRangeAux]
      refine List.Pairwise.cons ?_ (ih (lo + 1))
      intro y hy
      have := mem_seqRangeAux.1 hy
      omega

theorem seqRange_pairwise (lo hi : Int) : (seqRange lo hi).Pairwise (· < ·) :=
  seqRangeAux_pairwise _ _

theorem find?_split {α : Type} (p : α → Bool) :
    ∀ (l : List α) (a : α), l.find? p = some a →
      ∃ l₁ l₂, l = l₁ ++ a :: l₂ ∧ ∀ x ∈ l₁, ¬ p x := by
  intro l
  induction l with
  | nil => intro a h; simp [List.find?] at h
  | cons b t ih =>
      intro a h
      by_cases hb : p b
      · refine ⟨[], t, ?_, by simp⟩
        rw [List.find?_cons_of_pos _ hb] at h
        obtain rfl : b = a := by simpa using h
        rfl
      · rw [List.find?_cons_of_neg _ (by simpa using hb)] at h
        obtain ⟨l₁, l₂, hsplit, hfail⟩ := ih a h
        refine ⟨b :: l₁, l₂, by simp [hsplit], ?_⟩
        intro x hx
        rcases List.mem_cons.1 hx with rfl | hx'
        · exact hb
        · exact hfail x hx'

theorem insertSeg_ne_nil (m : SegMap) (seg : Segment) : insertSeg m seg ≠ [] := by
  cases m with
  | nil => simp [insertSeg]
  | cons a t =>
      rw [insertSeg]
      split <;> simp

theorem goodBuffer_empty : GoodBuffer emptyBuffer := by
  refine ⟨fun _ => ⟨rfl, rfl⟩, ?_, ?_⟩
  · intro k hk
    simp [emptyBuffer, segKeys] at hk
  · intro h
    exact absurd rfl h

theorem goodBuffer_add {b : Buffer} (hb : GoodBuffer b) {seg : Segment}
    (hseg : 1 ≤ seg.sequence) : GoodBuffer (AddSegment b seg) := by
  obtain ⟨hemp, hbound, hfs⟩ := hb
  have hkeys : segKeys (insertSeg b.segments seg) =
      if seg.sequence ∈ segKeys b.segments then segKeys b.segments
      else segKeys b.segments ++ [seg.sequence] := segKeys_insertSeg _ _
  have hmem_new : ∀ k ∈ segKeys (insertSeg b.segments seg),
      k ∈ segKeys b.segments ∨ k = seg.sequence := by
    intro k hk
    rw [hkeys] at hk
    split at hk
    · exact Or.inl hk
    · rcases List.mem_append.1 hk with h | h
      · exact Or.inl h
      · exact Or.inr (by simpa using h)
  have hseq_new : seg.sequence ∈ segKeys (insertSeg b.segments seg) := by
    rw [hkeys]
    split
    · assumption
    · simp
  refine ⟨fun h => absurd h (insertSeg_ne_nil _ _), ?_, ?_⟩
  · intro k hk
    rcases hmem_new k hk with hold | rfl
    · obtain ⟨h1, h2, h3⟩ := hbound k hold
      refine ⟨h1, ?_, ?_⟩
      · show (if b.firstSeq = 0 ∨ seg.sequence < b.firstSeq then seg.sequence else b.firstSeq) ≤ k
        split
        · rename_i hc
          rcases hc with hc | hc
          · have hne : b.segments ≠ [] := by
              intro hnil
              rw [hnil] at hold
              simp [segKeys] at hold
            obtain ⟨hk1, _, _⟩ := hbound b.firstSeq (hfs hne)
            omega
          · omega
        · exact h2
      · show k ≤ (if seg.sequence > b.lastSeq then seg.sequence else b.lastSeq)
        split <;> omega
    · refine ⟨hseg, ?_, ?_⟩
      · show (if b.firstSeq = 0 ∨ seg.sequence < b.firstSeq then seg.sequence else b.firstSeq) ≤ seg.sequence
        split
        · exact le_refl _
        · rename_i hc
          push_neg at hc
          exact hc.2
      · show seg.sequence ≤ (if seg.sequence > b.lastSeq then seg.sequence else b.lastSeq)
        split <;> omega
  · intro _
    show (if b.firstSeq = 0 ∨ seg.sequence < b.firstSeq then seg.sequence else b.firstSeq) ∈
      segKeys (insertSeg b.segments seg)
    split
    · exact hseq_new
    · rename_i hc
      push_neg at hc
      have hne : b.segments ≠ [] := by
        intro hnil
        apply hc.1
        exact (hemp hnil).1
      have hold := hfs hne
      rw [hkeys]
      split
      · exact hold
      · exact List.mem_append.2 (Or.inl hold)

theorem goodBuffer_clean {b : Buffer} (hb : GoodBuffer b) (cutoff : Int)
    (hne : (cleanup b cutoff).1.segments = [] → b.segments = []) :
    GoodBuffer (cleanup b cutoff).1 := by
  obtain ⟨hemp, hbound, hfs⟩ := hb
  rw [cleanup]
  by_cases hify : (b.segments.filter (fun p => decide (p.2.startTime < cutoff))).length = 0
  · simpa [hify] using ⟨hemp, hbound, hfs⟩
  · rw [cleanup, if_neg hify] at hne
    simp only [if_neg hify]
    have hbne : b.segments ≠ [] := by
      intro hnil
      rw [hnil] at hify
      simp at hify
    set keep := b.segments.filter (fun p => !decide (p.2.startTime < cutoff)) with hkeep
    have hkne : keep ≠ [] := by
      intro hnil
      exact hbne (hne (by simpa using hnil))
    have hsub : ∀ k ∈ segKeys keep, k ∈ segKeys b.segments := by
      intro k hk
      exact segKeys_filter_subset hk
    obtain ⟨k0, hk0⟩ : ∃ k0, k0 ∈ segKeys keep := by
      cases hkm : keep with
      | nil => exact absurd hkm hkne
      | cons a t => exact ⟨a.1, List.mem_cons_self _ _⟩
    have hk0b := hbound k0 (hsub k0 hk0)
    have hk0range : k0 ∈ seqRange b.firstSeq b.lastSeq := mem_seqRange.2 ⟨hk0b.2.1, hk0b.2.2⟩
    have hfind : ((seqRange b.firstSeq b.lastSeq).find?
        (fun s => (lookupSeq keep s).isSome)) ≠ none := by
      intro hnone
      have := List.find?_eq_none.1 hnone k0 hk0range
      rw [lookupSeq_isSome.2 hk0] at this
      exact this rfl
    obtain ⟨s, hs⟩ := Option.ne_none_iff_exists'.1 hfind
    have hsP : (lookupSeq keep s).isSome = true := by
      have h2 := List.find?_some hs
      simpa using h2
    have hsmem : s ∈ segKeys keep := lookupSeq_isSome.1 hsP
    have hsmin : ∀ k ∈ segKeys keep, s ≤ k := by
      intro k hk
      by_contra hlt
      push_neg at hlt
      obtain ⟨l₁, l₂, hsplit, hfail⟩ := find?_split _ _ _ hs
      have hkrange : k ∈ seqRange b.firstSeq b.lastSeq := by
        have := hbound k (hsub k hk)
        exact mem_seqRange.2 ⟨this.2.1, this.2.2⟩
      have hpw := seqRange_pairwise b.firstSeq b.lastSeq
      rw [hsplit] at hkrange hpw
      have hk_l1 : k ∈ l₁ := by
        rcases List.mem_append.1 hkrange with h | h
        · exact h
        · rcases List.mem_cons.1 h with rfl | h'
          · omega
          · have := (List.pairwise_append.1 hpw).2.1
            have hlt' := List.rel_of_pairwise_cons this h'
            omega
      have := hfail k hk_l1
      rw [lookupSeq_isSome.2 hk] at this
      exact this rfl
    rw [hs]
    refine ⟨fun h => absurd h hkne, ?_, ?_⟩
    · intro k hk
      have hkb := hbound k (hsub k hk)
      exact ⟨hkb.1, by simpa using hsmin k hk, hkb.2.2⟩
    · intro _
      simpa using hsmem

theorem goodBuffer_reachablePos {b : Buffer} (h : ReachablePos b) : GoodBuffer b := by
  induction h with
  | init => exact goodBuffer_empty
  | add b seg _ hseg ih => exact goodBuffer_add ih hseg
  | clean b cutoff _ hne ih => exact goodBuffer_clean ih cutoff hne

theorem cleanup_lookup (b : Buffer) (cutoff : Int)
    (hnd : (segKeys b.segments).Nodup) (q : Int) :
    lookupSeq (cleanup b cutoff).1.segments q =
      match lookupSeq b.segments q with
      | none => none
      | some v => if v.startTime < cutoff then none else some v := by
  rw [cleanup]
  by_cases hify : (b.segments.filter (fun p => decide (p.2.startTime < cutoff))).length = 0
  · simp only [if_pos hify]
    rcases hq : lookupSeq b.segments q with _ | v
    · rfl
    · have hv : ¬ (v.startTime < cutoff) := by
        intro hlt
        rw [List.length_eq_zero] at hify
        have hmem : (q, v) ∈ b.segments.filter (fun p => decide (p.2.startTime < cutoff)) :=
          List.mem_filter.2 ⟨mem_of_lookupSeq hq, by simpa using hlt⟩
        rw [hify] at hmem
        cases hmem
      simp [hv]
  · simp only [if_neg hify]
    rw [lookupSeq_filter (fun p => !decide (p.2.startTime < cutoff)) b.segments hnd q]
    rcases hq : lookupSeq b.segments q with _ | v
    · rfl
    · by_cases hv : v.startTime < cutoff
      · simp [hv]
      · simp [hv]

theorem cleanup_removed_files (b : Buffer) (cutoff : Int) (path : String) :
    path ∈ (cleanup b cutoff).2 ↔
      ∃ p, p ∈ b.segments ∧ p.2.startTime < cutoff ∧ path = p.2.filePath := by
  rw [cleanup]
  by_cases hify : (b.segments.filter (fun p => decide (p.2.startTime < cutoff))).length = 0
  · simp only [if_pos hify]
    constructor
    · intro h
      cases h
    · rintro ⟨p, hp, hlt, rfl⟩
      rw [List.length_eq_zero] at hify
      have hmem : p ∈ b.segments.filter (fun p => decide (p.2.startTime < cutoff)) :=
        List.mem_filter.2 ⟨hp, by simpa using hlt⟩
      rw [hify] at hmem
      cases hmem
  · simp only [if_neg hify, List.mem_map, List.mem_filter]
    constructor
    · rintro ⟨p, ⟨hp, hlt⟩, rfl⟩
      exact ⟨p, hp, by simpa using hlt, rfl⟩
    · rintro ⟨p, hp, hlt, rfl⟩
      exact ⟨p, ⟨hp, by simpa using hlt⟩, rfl⟩

/-- C1 counterexample: the segment starts before the cutoff 10 but its
interval reaches past the cutoff (5 + 100 ≥ 10), so the claim says it is
retained; the cleanup pass nevertheless deletes its file and map entry,
because the code tests StartTime alone against the cutoff. -/
theorem c1_counterexample :
    ¬ (segC1.startTime + segC1.duration < 10) ∧
    lookupSeq bufC1.segments segC1.sequence = some segC1 ∧
    lookupSeq (cleanup bufC1 10).1.segments segC1.sequence = none ∧
    (cleanup bufC1 10).2 = [segC1.filePath] := by decide

/-- C1 (amended): a cleanup pass with the given cutoff removes — deleting
the backing file and then the map entry — exactly those segments with
StartTime < cutoff (not StartTime + Duration < cutoff); every other entry
is kept unchanged. -/
theorem c1_cleanup_evicts_by_startTime (b : Buffer) (cutoff : Int)
    (hnd : (segKeys b.segments).Nodup) :
    (∀ q, lookupSeq (cleanup b cutoff).1.segments q =
      match lookupSeq b.segments q with
      | none => none
      | some v => if v.startTime < cutoff then none else some v) ∧
    (∀ path, path ∈ (cleanup b cutoff).2 ↔
      ∃ p, p ∈ b.segments ∧ p.2.startTime < cutoff ∧ path = p.2.filePath) :=
  ⟨cleanup_lookup b cutoff hnd, cleanup_removed_files b cutoff⟩

/-- C1 witness: the amended eviction characterization evaluated on the
one-segment buffer at cutoff 10. -/
theorem c1_witness :
    lookupSeq (cleanup bufC1 10).1.segments 1 =
      (match lookupSeq bufC1.segments 1 with
       | none => none
       | some v => if v.startTime < 10 then none else some v) :=
  (c1_cleanup_evicts_by_startTime bufC1 10 (by decide)).1 1

/-- C2 counterexample: admitting a second segment with the sequence already
stored replaces the stored segment — the later admit wins, the first is
lost — contradicting keep-the-first idempotence. -/
theorem c2_counterexample :
    segC2 ≠ segC1 ∧
    lookupSeq (AddSegment bufC1 segC2).segments 1 = some segC2 := by decide

/-- C2 (amended): admitting a segment stores it under its sequence
unconditionally, so on a duplicate sequence the later admit overwrites the
stored segment (last write wins) and the map size is unchanged; on a fresh
sequence the size grows by one. -/
theorem c2_addSegment_overwrites (b : Buffer) (seg : Segment) :
    lookupSeq (AddSegment b seg).segments seg.sequence = some seg ∧
    (AddSegment b seg).segments.length =
      (if seg.sequence ∈ segKeys b.segments then b.segments.length
       else b.segments.length + 1) :=
  ⟨lookupSeq_insertSeg_self b.segments seg, length_insertSeg b.segments seg⟩

/-- C3 counterexample: after admitting sequences 0 then 2 from the empty
buffer, the map holds keys 0 and 2 but FirstSeq is 2 (the admission of
sequence 0 left FirstSeq at the unset sentinel 0, so the next admission
re-captured it), violating FirstSeq = smallest key present. -/
theorem c3_counterexample :
    Reachable badBuf ∧
    badBuf.segments ≠ [] ∧
    (0 : Int) ∈ segKeys badBuf.segments ∧
    badBuf.firstSeq = 2 ∧
    ¬ (∀ k ∈ segKeys badBuf.segments, badBuf.firstSeq ≤ k) := by
  refine ⟨Reachable.add _ segTwo (Reachable.add _ segZero Reachable.init),
    by decide, by decide, by decide, by decide⟩

/-- C3 (amended): in every state reachable from the empty buffer by
admissions whose sequences are all at least 1 and cleanup passes that never
empty a non-empty buffer, a non-empty segment map has FirstSeq ≤ LastSeq
and FirstSeq equal to the smallest key present. -/
theorem c3_firstSeq_least (b : Buffer) (h : ReachablePos b)
    (hne : b.segments ≠ []) :
    b.firstSeq ≤ b.lastSeq ∧ b.firstSeq ∈ segKeys b.segments ∧
      ∀ k ∈ segKeys b.segments, b.firstSeq ≤ k := by
  obtain ⟨_, hbound, hfs⟩ := goodBuffer_reachablePos h
  have hf := hfs hne
  obtain ⟨_, _, h3⟩ := hbound b.firstSeq hf
  exact ⟨h3, hf, fun k hk => (hbound k hk).2.1⟩

/-- C3 witness: the amended invariant evaluated on the one-segment buffer
reached by admitting sequence 1. -/
theorem c3_witness :
    bufC1.firstSeq ≤ bufC1.lastSeq ∧ bufC1.firstSeq ∈ segKeys bufC1.segments ∧
      ∀ k ∈ segKeys bufC1.segments, bufC1.firstSeq ≤ k :=
  c3_firstSeq_least bufC1
    (ReachablePos.add emptyBuffer segC1 ReachablePos.init (by decide)) (by decide)

/-- C4 counterexample: in the reachable state badBuf the segment with
sequence 0 is stored and its interval intersects the queried window, yet
the time-range query misses it because the scan starts at the stale
FirstSeq = 2. -/
theorem c4_counterexample :
    Reachable badBuf ∧
    lookupSeq badBuf.segments segZero.sequence = some segZero ∧
    intervalsIntersect segZero.startTime (segZero.startTime + segZero.duration)
      0 2000000000 ∧
    segZero ∉ GetSegmentsInRange badBuf 0 2000000000 := by
  refine ⟨Reachable.add _ segTwo (Reachable.add _ segZero Reachable.init),
    by decide, ⟨0, by decide⟩, by decide⟩

/-- C4 (amended): on a buffer state whose stored entries carry their own
sequence as key, whose keys all lie in [FirstSeq, LastSeq], and whose
segments have positive duration, a query with startWall < endWall returns
exactly the stored segments whose half-open interval intersects
[startWall, endWall), in ascending sequence order. -/
theorem c4_rangeByTime (b : Buffer) (startT endT : Int)
    (hwf : ∀ p ∈ b.segments, p.2.sequence = p.1)
    (hrange : ∀ k ∈ segKeys b.segments, b.firstSeq ≤ k ∧ k ≤ b.lastSeq)
    (hdur : ∀ p ∈ b.segments, 0 < p.2.duration)
    (hq : startT < endT) :
    (∀ seg, seg ∈ GetSegmentsInRange b startT endT ↔
        (lookupSeq b.segments seg.sequence = some seg ∧
         intervalsIntersect seg.startTime (seg.startTime + seg.duration) startT endT)) ∧
    (GetSegmentsInRange b startT endT).Pairwise (fun x y => x.sequence < y.sequence) := by
  have hval : ∀ (s : Int) (x : Segment),
      (match lookupSeq b.segments s with
        | none => none
        | some sg =>
            if sg.startTime < endT ∧ startT < sg.startTime + sg.duration then
              some sg
            else none) = some x →
      lookupSeq b.segments s = some x ∧ x.sequence = s ∧
        x.startTime < endT ∧ startT < x.startTime + x.duration := by
    intro s x hf
    rcases hlook : lookupSeq b.segments s with _ | sg
    · rw [hlook] at hf
      exact Option.noConfusion hf
    · rw [hlook] at hf
      have hf2 : (if sg.startTime < endT ∧ startT < sg.startTime + sg.duration then
          some sg else none) = some x := hf
      by_cases hcond : sg.startTime < endT ∧ startT < sg.startTime + sg.duration
      · rw [if_pos hcond] at hf2
        have hx : sg = x := Option.some.inj hf2
        subst hx
        exact ⟨rfl, hwf (s, sg) (mem_of_lookupSeq hlook), hcond.1, hcond.2⟩
      · rw [if_neg hcond] at hf2
        exact Option.noConfusion hf2
  constructor
  · intro seg
    rw [GetSegmentsInRange, List.mem_filterMap]
    constructor
    · rintro ⟨s, hs, hf⟩
      obtain ⟨hlook, hseq, hc1, hc2⟩ := hval s seg hf
      have hmem := mem_of_lookupSeq hlook
      have hd : 0 < seg.duration := hdur (s, seg) hmem
      refine ⟨by rw [hseq]; exact hlook, ⟨max startT seg.startTime, ?_, ?_⟩⟩
      · constructor
        · omega
        · omega
      · constructor
        · omega
        · omega
    · rintro ⟨hlook, ⟨t, ⟨ht1, ht2⟩, ht3, ht4⟩⟩
      have hmem := mem_of_lookupSeq hlook
      have hkey : seg.sequence ∈ segKeys b.segments := by
        simp only [segKeys, List.mem_map]
        exact ⟨(seg.sequence, seg), hmem, rfl⟩
      have hr := hrange _ hkey
      refine ⟨seg.sequence, mem_seqRange.2 hr, ?_⟩
      show (match lookupSeq b.segments seg.sequence with
        | none => none
        | some sg =>
            if sg.startTime < endT ∧ startT < sg.startTime + sg.duration then
              some sg
            else none) = some seg
      rw [hlook]
      show (if seg.startTime < endT ∧ startT < seg.startTime + seg.duration then
          some seg else none) = some seg
      rw [if_pos ⟨by omega, by omega⟩]
  · rw [GetSegmentsInRange, List.pairwise_filterMap]
    refine (seqRange_pairwise b.firstSeq b.lastSeq).imp ?_
    intro s s' hss x hx y hy
    rw [Option.mem_def] at hx hy
    have h1 := (hval s x hx).2.1
    have h2 := (hval s' y hy).2.1
    omega

/-- C4 witness: the amended range-query characterization evaluated on the
two-segment buffer for the window [0 ms, 2000 ms). -/
theorem c4_witness :
    (segC1 ∈ GetSegmentsInRange bufC4 0 2000000000 ↔
        (lookupSeq bufC4.segments segC1.sequence = some segC1 ∧
         intervalsIntersect segC1.startTime (segC1.startTime + segC1.duration)
           0 2000000000)) ∧
    (GetSegmentsInRange bufC4 0 2000000000).Pairwise (fun x y => x.sequence < y.sequence) :=
  ⟨(c4_rangeByTime bufC4 0 2000000000 (by decide) (by decide) (by decide) (by decide)).1 segC1,
   (c4_rangeByTime bufC4 0 2000000000 (by decide) (by decide) (by decide) (by decide)).2⟩

/-- C5 counterexample: for a window starting 5 s before the first resolved
segment, the code's head trim is −5 s (not clamped to 0), the second copy
pass is invoked because the tail trim is 1 s, and the seek passed to it is
the negative −5 s rather than the claimed max(0, ·) = 0. -/
theorem c5_counterexample :
    generateClipPlan bufC5 0 6000 = some planC5 ∧
    planC5.doTrim = true ∧
    planC5.seek = -5 ∧
    specTrimHead segC5 0 = 0 ∧
    planC5.seek ≠ specTrimHead segC5 0 := by
  have h : GetSegmentsInRange bufC5 (milliToNano 0) (milliToNano 6000) = [segC5] := by
    decide
  refine ⟨?_, rfl, rfl, ?_, ?_⟩
  · rw [generateClipPlan, h]
    simp only [clipTrimPlan, secondsOfNanos, milliToNano, segC5, planC5, List.getLastD,
      Option.some.injEq, TrimPlan.mk.injEq]
    norm_num
  · simp only [specTrimHead, secondsOfNanos, milliToNano, segC5]
    norm_num
  · simp only [specTrimHead, secondsOfNanos, milliToNano, segC5, planC5]
    norm_num

/-- C5 (amended): when the time-range resolution is non-empty, the clip
builder computes trimHead = (startMs − segs[0].StartTime) and
trimTail = (segs[last].StartTime + segs[last].Duration − endMs) in seconds,
clamping neither; it invokes the second trimming pass iff trimHead > 0.1 s
or trimTail > 0.1 s, seeking the unclamped trimHead seconds in and emitting
(endMs − startMs)/1000 seconds. -/
theorem c5_trimPlan (b : Buffer) (startMs endMs : Int) (first : Segment)
    (rest : List Segment)
    (hsegs : GetSegmentsInRange b (milliToNano startMs) (milliToNano endMs) = first :: rest) :
    generateClipPlan b startMs endMs = some
      { trimStart := secondsOfNanos (milliToNano startMs - first.startTime)
        trimEnd := secondsOfNanos ((rest.getLastD first).startTime +
          (rest.getLastD first).duration - milliToNano endMs)
        doTrim := decide (secondsOfNanos (milliToNano startMs - first.startTime) > 1/10 ∨
          secondsOfNanos ((rest.getLastD first).startTime +
            (rest.getLastD first).duration - milliToNano endMs) > 1/10)
        seek := secondsOfNanos (milliToNano startMs - first.startTime)
        outDur := ((endMs - startMs : Int) : ℚ) / 1000 } := by
  rw [generateClipPlan, hsegs]
  rfl

/-- C5 witness: the amended trim computation evaluated on bufC5 for the
window [0 ms, 6000 ms). -/
theorem c5_witness :
    generateClipPlan bufC5 0 6000 = some
      { trimStart := secondsOfNanos (milliToNano 0 - segC5.startTime)
        trimEnd := secondsOfNanos ((List.getLastD [] segC5).startTime +
          (List.getLastD [] segC5).duration - milliToNano 6000)
        doTrim := decide (secondsOfNanos (milliToNano 0 - segC5.startTime) > 1/10 ∨
          secondsOfNanos ((List.getLastD [] segC5).startTime +
            (List.getLastD [] segC5).duration - milliToNano 6000) > 1/10)
        seek := secondsOfNanos (milliToNano 0 - segC5.startTime)
        outDur := ((6000 - 0 : Int) : ℚ) / 1000 } :=
  c5_trimPlan bufC5 0 6000 segC5 [] (by decide)

theorem lookupGhost_nil (pid : String) : lookupGhost [] pid = none := rfl

theorem lookupGhost_cons_pos {a : String × GhostClip} {t : GhostMap} {pid : String}
    (h : a.1 = pid) : lookupGhost (a :: t) pid = some a.2 := by
  simp only [lookupGhost]
  rw [List.find?_cons_of_pos _ (by simp [h])]
  rfl

theorem lookupGhost_cons_neg {a : String × GhostClip} {t : GhostMap} {pid : String}
    (h : a.1 ≠ pid) : lookupGhost (a :: t) pid = lookupGhost t pid := by
  simp only [lookupGhost]
  rw [List.find?_cons_of_neg _ (by simp [h])]

theorem lookupGhost_append_single {g : GhostMap} {pid : String} {gc : GhostClip}
    (h : lookupGhost g pid = none) :
    lookupGhost (g ++ [(pid, gc)]) pid = some gc := by
  induction g with
  | nil => exact lookupGhost_cons_pos rfl
  | cons a t ih =>
      by_cases hap : a.1 = pid
      · rw [lookupGhost_cons_pos hap] at h
        cases h
      · rw [lookupGhost_cons_neg hap] at h
        rw [List.cons_append, lookupGhost_cons_neg hap]
        exact ih h

theorem lookupGhost_erase (g : GhostMap) (pid : String) :
    lookupGhost (g.filter (fun p => !(p.1 == pid))) pid = none := by
  induction g with
  | nil => rfl
  | cons a t ih =>
      by_cases hap : a.1 = pid
      · rw [List.filter_cons, if_neg (by simp [hap])]
        exact ih
      · rw [List.filter_cons, if_pos (by simp [hap]), lookupGhost_cons_neg hap]
        exact ih

/-- C6 counterexample: opening a boundary on a buffer that has never
admitted a segment records StartSeq = 0 (the Go zero value of lastSeq),
not the claimed sentinel −1. -/
theorem c6_counterexample :
    emptyBuffer.segments = [] ∧
    (StartGhostClip emptyBuffer [] ghostPid 7).1 = none ∧
    lookupGhost (StartGhostClip emptyBuffer [] ghostPid 7).2 ghostPid =
      some { playID := ghostPid, startTime := 7, startSeq := 0, segments := [] } ∧
    (0 : Int) ≠ -1 := by decide

/-- C6 (amended): opening a fresh boundary always records
StartSeq = lastSeq at open time; on the never-written buffer this value is
the zero sentinel 0, not −1. -/
theorem c6_startSeq (b : Buffer) (g : GhostMap) (pid : String) (now : Int)
    (h : lookupGhost g pid = none) :
    (StartGhostClip b g pid now).1 = none ∧
    lookupGhost (StartGhostClip b g pid now).2 pid =
      some { playID := pid, startTime := now, startSeq := b.lastSeq, segments := [] } ∧
    emptyBuffer.lastSeq = 0 := by
  rw [StartGhostClip, if_neg (by rw [h]; simp)]
  exact ⟨rfl, lookupGhost_append_single h, rfl⟩

/-- C6 witness: opening a boundary on the empty buffer with no active
boundaries. -/
theorem c6_witness :
    (StartGhostClip emptyBuffer [] ghostPid 7).1 = none ∧
    lookupGhost (StartGhostClip emptyBuffer [] ghostPid 7).2 ghostPid =
      some { playID := ghostPid, startTime := 7,
             startSeq := emptyBuffer.lastSeq, segments := [] } ∧
    emptyBuffer.lastSeq = 0 :=
  c6_startSeq emptyBuffer [] ghostPid 7 (by decide)

/-- C7: opening fails exactly when the id is already active and leaves the
map unchanged on failure; closing fails exactly when the id is not active
and leaves the map unchanged on failure; a successful close removes the
boundary, so an immediate repeated close of the same id fails and changes
nothing. -/
theorem c7_ghost_tracker (b : Buffer) (g : GhostMap) (pid : String) (now now2 : Int) :
    ((StartGhostClip b g pid now).1 = none ↔ lookupGhost g pid = none) ∧
    ((StartGhostClip b g pid now).1 ≠ none → (StartGhostClip b g pid now).2 = g) ∧
    (exceptOk (EndGhostClip g pid now).1 = true ↔ (lookupGhost g pid).isSome = true) ∧
    (exceptOk (EndGhostClip g pid now).1 = true →
      lookupGhost (EndGhostClip g pid now).2 pid = none ∧
      exceptOk (EndGhostClip (EndGhostClip g pid now).2 pid now2).1 = false ∧
      (EndGhostClip (EndGhostClip g pid now).2 pid now2).2 = (EndGhostClip g pid now).2) ∧
    (exceptOk (EndGhostClip g pid now).1 = false → (EndGhostClip g pid now).2 = g) := by
  rcases hl : lookupGhost g pid with _ | gc
  · rw [StartGhostClip, if_neg (by rw [hl]; simp), EndGhostClip, hl]
    refine ⟨by simp [hl], by simp, by simp [exceptOk], by simp [exceptOk], fun _ => rfl⟩
  · rw [StartGhostClip, if_pos (by rw [hl]; simp), EndGhostClip, hl]
    have herase := lookupGhost_erase g pid
    refine ⟨by simp [hl], fun _ => rfl, by simp [exceptOk], ?_, by simp [exceptOk]⟩
    intro _
    refine ⟨herase, ?_, ?_⟩
    · rw [EndGhostClip, herase]
      rfl
    · rw [EndGhostClip, herase]

/-- C7 witness: the tracker contract evaluated on a map with the single
active boundary ghostC7. -/
theorem c7_witness :
    ((StartGhostClip emptyBuffer [(ghostPid, ghostC7)] ghostPid 1).1 = none ↔
      lookupGhost [(ghostPid, ghostC7)] ghostPid = none) ∧
    ((StartGhostClip emptyBuffer [(ghostPid, ghostC7)] ghostPid 1).1 ≠ none →
      (StartGhostClip emptyBuffer [(ghostPid, ghostC7)] ghostPid 1).2 = [(ghostPid, ghostC7)]) ∧
    (exceptOk (EndGhostClip [(ghostPid, ghostC7)] ghostPid 1).1 = true ↔
      (lookupGhost [(ghostPid, ghostC7)] ghostPid).isSome = true) ∧
    (exceptOk (EndGhostClip [(ghostPid, ghostC7)] ghostPid 1).1 = true →
      lookupGhost (EndGhostClip [(ghostPid, ghostC7)] ghostPid 1).2 ghostPid = none ∧
      exceptOk (EndGhostClip (EndGhostClip [(ghostPid, ghostC7)] ghostPid 1).2 ghostPid 2).1 = false ∧
      (EndGhostClip (EndGhostClip [(ghostPid, ghostC7)] ghostPid 1).2 ghostPid 2).2 =
        (EndGhostClip [(ghostPid, ghostC7)] ghostPid 1).2) ∧
    (exceptOk (EndGhostClip [(ghostPid, ghostC7)] ghostPid 1).1 = false →
      (EndGhostClip [(ghostPid, ghostC7)] ghostPid 1).2 = [(ghostPid, ghostC7)]) :=
  c7_ghost_tracker emptyBuffer [(ghostPid, ghostC7)] ghostPid 1 2

/-- C8 counterexample: with retention 3 s and segment size 2 s the code's
denominator is trunc(3/2) = 1, so one stored segment reports health 1,
while the spec's ceiling denominator 2 would report 1/2. -/
theorem c8_counterexample :
    (GetStatus cfgC8 bufC1).health = 1 ∧
    specHealth bufC1.segments.length cfgC8.duration cfgC8.segmentSize = 1/2 ∧
    (GetStatus cfgC8 bufC1).health ≠
      specHealth bufC1.segments.length cfgC8.duration cfgC8.segmentSize := by
  have hmax : Int.tdiv cfgC8.duration cfgC8.segmentSize = 1 := by decide
  have hceil : ceilDiv cfgC8.duration cfgC8.segmentSize = 2 := by decide
  have hlen : bufC1.segments.length = 1 := by decide
  have h1 : (GetStatus cfgC8 bufC1).health = 1 := by
    simp [GetStatus, hmax, hlen]
  have h2 : specHealth bufC1.segments.length cfgC8.duration cfgC8.segmentSize = 1/2 := by
    rw [specHealth, hceil, hlen]
    rw [min_eq_right (by norm_num)]
    norm_num
  refine ⟨h1, h2, ?_⟩
  rw [h1, h2]
  norm_num

/-- C8 (amended): the reported health equals
min(1, |segments| / trunc(RetentionDuration / SegmentDuration)) — the
denominator is Go's truncating integer division of the two durations, not
the ceiling of their quotient. -/
theorem c8_health_floor (cfg : Config) (b : Buffer) :
    (GetStatus cfg b).health =
      min 1 ((b.segments.length : ℚ) /
        ((Int.tdiv cfg.duration cfg.segmentSize : Int) : ℚ)) := by
  show (if ((b.segments.length : ℚ) /
        ((Int.tdiv cfg.duration cfg.segmentSize : Int) : ℚ)) > 1 then (1 : ℚ)
      else ((b.segments.length : ℚ) /
        ((Int.tdiv cfg.duration cfg.segmentSize : Int) : ℚ))) = _
  by_cases hgt : ((b.segments.length : ℚ) /
      ((Int.tdiv cfg.duration cfg.segmentSize : Int) : ℚ)) > 1
  · rw [if_pos hgt, min_eq_left (le_of_lt hgt)]
  · rw [if_neg hgt, min_eq_right (not_lt.1 hgt)]

/-- C9 counterexample: the index save performs a single direct WriteFile to
index.json and no rename at all, so the write-then-rename discipline fails
on it. -/
theorem c9_counterexample :
    FsOp.write (dataDir ++ indexFileName) ∈ (saveIndex cfgC8 bufC1 dataDir).2 ∧
    ¬ writeThenRename (saveIndex cfgC8 bufC1 dataDir).2 (dataDir ++ indexFileName) := by
  constructor
  · simp [saveIndex]
  · rintro ⟨⟨tmp, _, _, hr⟩, _⟩
    simp [saveIndex] at hr

/-- C9 (amended): every index save writes the serialized index in one
direct WriteFile to index.json under the buffer path — no temporary file
and no rename — while the serialized segment list is sorted by sequence and
records the buffer's FirstSeq and LastSeq. -/
theorem c9_saveIndex_direct_write (cfg : Config) (b : Buffer) (dir : String) :
    (saveIndex cfg b dir).2 = [FsOp.write (dir ++ indexFileName)] ∧
    (∀ s d, FsOp.rename s d ∉ (saveIndex cfg b dir).2) ∧
    (saveIndex cfg b dir).1.segments.Sorted seqLE ∧
    (saveIndex cfg b dir).1.firstSeq = b.firstSeq ∧
    (saveIndex cfg b dir).1.lastSeq = b.lastSeq := by
  refine ⟨rfl, ?_, ?_, rfl, rfl⟩
  · intro s d hmem
    simp [saveIndex] at hmem
  · exact List.sorted_insertionSort seqLE _

/-- C10 counterexample: the buffer whose only segment has sequence 0 does
report OldestTime = NewestTime = 0 like the empty buffer, but SegmentCount
is not the only distinguishing field of the snapshot: Health differs too
(1/10 versus 0), so copying SegmentCount across does not equate the two
statuses. -/
theorem c10_counterexample :
    (GetStatus cfgC10 (AddSegment emptyBuffer segZero)).oldestTime = 0 ∧
    (GetStatus cfgC10 (AddSegment emptyBuffer segZero)).newestTime = 0 ∧
    (GetStatus cfgC10 (AddSegment emptyBuffer segZero)).health ≠
      (GetStatus cfgC10 emptyBuffer).health ∧
    { GetStatus cfgC10 (AddSegment emptyBuffer segZero) with
        segmentCount := (GetStatus cfgC10 emptyBuffer).segmentCount } ≠
      GetStatus cfgC10 emptyBuffer := by
  have hmax : Int.tdiv cfgC10.duration cfgC10.segmentSize = 10 := by decide
  have hlen : (AddSegment emptyBuffer segZero).segments.length = 1 := by decide
  have h1 : (GetStatus cfgC10 (AddSegment emptyBuffer segZero)).health = 1/10 := by
    simp [GetStatus, hmax, hlen]
    norm_num
  have h0 : (GetStatus cfgC10 emptyBuffer).health = 0 := by
    simp [GetStatus, emptyBuffer]
  have hne : (GetStatus cfgC10 (AddSegment emptyBuffer segZero)).health ≠
      (GetStatus cfgC10 emptyBuffer).health := by
    rw [h1, h0]
    norm_num
  refine ⟨by decide, by decide, hne, ?_⟩
  intro h
  have hh := congrArg BufferStatus.health h
  exact hne hh

/-- C10 (amended): for any configuration with a positive segment budget,
the status of the buffer whose only admitted segment has sequence 0 agrees
with the empty buffer's status on OldestTime (both 0), NewestTime (both 0),
FirstSeq, LastSeq, InitSegment and ChannelID; the two snapshots are
distinguished exactly by SegmentCount (1 versus 0) and by the Health value
derived from it. -/
theorem c10_seq0_status (cfg : Config) (seg : Segment) (hseq : seg.sequence = 0)
    (hmax : 0 < Int.tdiv cfg.duration cfg.segmentSize) :
    (GetStatus cfg (AddSegment emptyBuffer seg)).oldestTime = 0 ∧
    (GetStatus cfg (AddSegment emptyBuffer seg)).newestTime = 0 ∧
    (GetStatus cfg (AddSegment emptyBuffer seg)).oldestTime =
      (GetStatus cfg emptyBuffer).oldestTime ∧
    (GetStatus cfg (AddSegment emptyBuffer seg)).newestTime =
      (GetStatus cfg emptyBuffer).newestTime ∧
    (GetStatus cfg (AddSegment emptyBuffer seg)).firstSeq =
      (GetStatus cfg emptyBuffer).firstSeq ∧
    (GetStatus cfg (AddSegment emptyBuffer seg)).lastSeq =
      (GetStatus cfg emptyBuffer).lastSeq ∧
    (GetStatus cfg (AddSegment emptyBuffer seg)).initSegment =
      (GetStatus cfg emptyBuffer).initSegment ∧
    (GetStatus cfg (AddSegment emptyBuffer seg)).channelID =
      (GetStatus cfg emptyBuffer).channelID ∧
    (GetStatus cfg (AddSegment emptyBuffer seg)).segmentCount = 1 ∧
    (GetStatus cfg emptyBuffer).segmentCount = 0 ∧
    (GetStatus cfg (AddSegment emptyBuffer seg)).health ≠
      (GetStatus cfg emptyBuffer).health := by
  have hb : AddSegment emptyBuffer seg =
      { segments := [(0, seg)], firstSeq := 0, lastSeq := 0, initSegment := "" } := by
    rw [AddSegment]
    simp [emptyBuffer, insertSeg, hseq]
  rw [hb]
  have hq1 : (1 : ℚ) ≤ ((Int.tdiv cfg.duration cfg.segmentSize : Int) : ℚ) := by
    exact_mod_cast hmax
  have hqpos : (0 : ℚ) < ((Int.tdiv cfg.duration cfg.segmentSize : Int) : ℚ) :=
    lt_of_lt_of_le zero_lt_one hq1
  have h1 : (GetStatus cfg
      { segments := [(0, seg)], firstSeq := 0, lastSeq := 0, initSegment := "" }).health =
      1 / ((Int.tdiv cfg.duration cfg.segmentSize : Int) : ℚ) := by
    show (if ((1 : ℚ) / ((Int.tdiv cfg.duration cfg.segmentSize : Int) : ℚ)) > 1 then (1 : ℚ)
        else ((1 : ℚ) / ((Int.tdiv cfg.duration cfg.segmentSize : Int) : ℚ))) = _
    rw [if_neg (not_lt.2 ((div_le_one hqpos).2 hq1))]
  have h0 : (GetStatus cfg emptyBuffer).health = 0 := by
    simp [GetStatus, emptyBuffer]
  refine ⟨rfl, rfl, rfl, rfl, rfl, rfl, rfl, rfl, rfl, rfl, ?_⟩
  rw [h1, h0]
  exact one_div_ne_zero (ne_of_gt hqpos)

/-- C10 witness: the amended sentinel-collision statement evaluated at the
20 s / 2 s configuration and the sequence-0 segment. -/
theorem c10_witness :
    (GetStatus cfgC10 (AddSegment emptyBuffer segZero)).oldestTime = 0 ∧
    (GetStatus cfgC10 (AddSegment emptyBuffer segZero)).newestTime = 0 ∧
    (GetStatus cfgC10 (AddSegment emptyBuffer segZero)).oldestTime =
      (GetStatus cfgC10 emptyBuffer).oldestTime ∧
    (GetStatus cfgC10 (AddSegment emptyBuffer segZero)).newestTime =
      (GetStatus cfgC10 emptyBuffer).newestTime ∧
    (GetStatus cfgC10 (AddSegment emptyBuffer segZero)).firstSeq =
      (GetStatus cfgC10 emptyBuffer).firstSeq ∧
    (GetStatus cfgC10 (AddSegment emptyBuffer segZero)).lastSeq =
      (GetStatus cfgC10 emptyBuffer).lastSeq ∧
    (GetStatus cfgC10 (AddSegment emptyBuffer segZero)).initSegment =
      (GetStatus cfgC10 emptyBuffer).initSegment ∧
    (GetStatus cfgC10 (AddSegment emptyBuffer segZero)).channelID =
      (GetStatus cfgC10 emptyBuffer).channelID ∧
    (GetStatus cfgC10 (AddSegment emptyBuffer segZero)).segmentCount = 1 ∧
    (GetStatus cfgC10 emptyBuffer).segmentCount = 0 ∧
    (GetStatus cfgC10 (AddSegment emptyBuffer segZero)).health ≠
      (GetStatus cfgC10 emptyBuffer).health :=
  c10_seq0_status cfgC10 segZero (by decide) (by decide)

end VideoCapture


